import Mathlib

/-!
Verification development for the scope-analysis stage of a small C-like
compiler front end.

The repository ships the CLI driver (`main.cpp`) together with design
documentation of the scope analyzer; the analyzer implementation itself
(`scope_analyzer.h` / `scope_analyzer.cpp`) is referenced by the build
instructions but its sources are not present.  The driver below is embedded
from `main.cpp`; the analyzer (data model, spaghetti-stack scope chain,
two-phase traversal) is modelled from the specification.
-/

/-- Modelled from the spec: the closed four-kind error taxonomy of the
missing `scope_analyzer.h`. -/
inductive ScopeError where
| UndeclaredVariableAccessed
| UndefinedFunctionCalled
| VariableRedefinition
| FunctionPrototypeRedefinition
deriving DecidableEq, Repr

/-- Modelled from the spec: `VariableSymbol` of the missing
`scope_analyzer.h` (name, source-level type name, depth of the owning
scope node, parameter flag). -/
structure VariableSymbol where
  name : String
  type : String
  scopeLevel : Nat
  isParameter : Bool
deriving DecidableEq, Repr

/-- Modelled from the spec: `FunctionSymbol` of the missing
`scope_analyzer.h`; `isDefined` is always true once registered because every
function occurrence in this language is a definition. -/
structure FunctionSymbol where
  name : String
  returnType : String
  parameterTypes : List String
  parameterNames : List String
  isDefined : Bool
deriving DecidableEq, Repr

/-- Association-list probe, first match wins; stands in for the
`std::unordered_map` probes of the modelled analyzer (a node never holds two
entries with the same key, so the representation difference is immaterial). -/
def alookup {α : Type} : List (String × α) → String → Option α
| [], _ => none
| (k, v) :: rest, x => if k = x then some v else alookup rest x

/-- Modelled from the spec: one node of the spaghetti stack — a scope
depth together with the mapping of names declared directly in this node.
The upward `parent` pointer of the missing `ScopeNode` class is represented
positionally: the analyzer threads the active chain as a list with the
innermost node first and the global root last. -/
structure ScopeNode where
  level : Nat
  vars : List (String × VariableSymbol)
deriving DecidableEq, Repr

/-- Modelled from the spec: `ScopeNode::lookup` — local mapping probe only,
no chain walk. -/
def ScopeNode.lookup (n : ScopeNode) (x : String) : Option VariableSymbol :=
  alookup n.vars x

/-- Modelled from the spec: `ScopeNode::declare` — inserts only if the name
is absent locally; otherwise signals a conflict and leaves the existing
symbol untouched.  Returns the (possibly updated) node and an ok flag. -/
def ScopeNode.declare (n : ScopeNode) (x : String) (sym : VariableSymbol) :
    ScopeNode × Bool :=
  match n.lookup x with
  | some _ => (n, false)
  | none => ({ n with vars := n.vars ++ [(x, sym)] }, true)

/-- Modelled from the spec: `ScopeNode::lookupRecursive` — probes the
current node, then each ancestor in turn until the root, returning `none`
only if no node on the chain holds the name. -/
def lookupRecursive : List ScopeNode → String → Option VariableSymbol
| [], _ => none
| n :: rest, x =>
  match n.lookup x with
  | some s => some s
  | none => lookupRecursive rest x

/-- Modelled from the spec: `registerFunction` of the function table —
rejects a second registration for the same name (the first entry wins and is
kept); returns the (possibly extended) table and an ok flag. -/
def registerFunction (tbl : List (String × FunctionSymbol))
    (f : FunctionSymbol) : List (String × FunctionSymbol) × Bool :=
  match alookup tbl f.name with
  | some _ => (tbl, false)
  | none => (tbl ++ [(f.name, f)], true)

/-- Modelled from the spec: the closed expression variant set consumed by
the analyzer (identifier, literal, binary op, unary op, call). -/
inductive Expr where
| ident : String → Expr
| lit : Int → Expr
| binop : Expr → Expr → Expr
| unop : Expr → Expr
| call : String → List Expr → Expr

/-- Modelled from the spec: the closed statement variant set
(variable declaration, assignment, if, while, for, plain block,
expression statement, return). -/
inductive Stmt where
| varDecl : String → String → Stmt
| assign : String → Expr → Stmt
| ifS : Expr → List Stmt → Option (List Stmt) → Stmt
| whileS : Expr → List Stmt → Stmt
| forS : Stmt → Expr → Stmt → List Stmt → Stmt
| block : List Stmt → Stmt
| exprS : Expr → Stmt
| ret : Option Expr → Stmt

/-- One (type, name) parameter of a function declaration, as printed by
`main.cpp` from the parse tree. -/
structure Parameter where
  type : String
  name : String

/-- One top-level function of the program tree: name, return type, ordered
parameters and body statement sequence (the shape `main.cpp` reads off
`program_root->functions`). -/
structure FunctionDecl where
  name : String
  returnType : String
  parameters : List Parameter
  body : List Stmt

/-- One top-level (global) variable declaration. -/
structure GlobalVarDecl where
  type : String
  name : String

/-- The program tree root exposed by the parser (`program_root` in
`main.cpp`): ordered global variables and ordered top-level functions. -/
structure ProgramNode where
  globalVariables : List GlobalVarDecl
  functions : List FunctionDecl

/-- Modelled from the spec: the mutable state of the missing
`ScopeAnalyzer` — the function table, the currently active scope chain
(innermost first, global root last) and the ordered accumulated error list.
Each error is recorded as its kind paired with the offending name. -/
structure AnalyzerState where
  functionTable : List (String × FunctionSymbol)
  scopeChain : List ScopeNode
  errors : List (ScopeError × String)

/-- Append one error to the ordered error list. -/
def AnalyzerState.addError (st : AnalyzerState) (k : ScopeError) (x : String) :
    AnalyzerState :=
  { st with errors := st.errors ++ [(k, x)] }

/-- Depth of the innermost active scope node (0 when the chain is empty). -/
def currentLevel : List ScopeNode → Nat
| [] => 0
| n :: _ => n.level

/-- Modelled from the spec: push a fresh child scope node (depth =
`parent.level + 1`) onto the active chain. -/
def AnalyzerState.enterScope (st : AnalyzerState) : AnalyzerState :=
  { st with scopeChain := ⟨currentLevel st.scopeChain + 1, []⟩ :: st.scopeChain }

/-- Modelled from the spec: pop the innermost active scope node. -/
def AnalyzerState.exitScope (st : AnalyzerState) : AnalyzerState :=
  { st with scopeChain := st.scopeChain.tail }

/-- Modelled from the spec: declare a variable in the currently active
(innermost) scope node; a conflict is reported as `VariableRedefinition`
and the existing symbol is left untouched. -/
def AnalyzerState.declareVariable (st : AnalyzerState) (x ty : String)
    (isParam : Bool) : AnalyzerState :=
  match st.scopeChain with
  | [] => st
  | n :: rest =>
    match n.declare x ⟨x, ty, n.level, isParam⟩ with
    | (n2, true) => { st with scopeChain := n2 :: rest }
    | (_, false) => st.addError ScopeError.VariableRedefinition x

mutual

/-- Modelled from the spec: expression validation — identifier references
are resolved along the active scope chain (`UndeclaredVariableAccessed` on
failure), call names against the function table (`UndefinedFunctionCalled`
on failure), and operands/arguments are recursed into; no scope node is
pushed for expressions. -/
def analyzeExpr (st : AnalyzerState) : Expr → AnalyzerState
| .ident x =>
  match lookupRecursive st.scopeChain x with
  | some _ => st
  | none => st.addError ScopeError.UndeclaredVariableAccessed x
| .lit _ => st
| .binop l r => analyzeExpr (analyzeExpr st l) r
| .unop e => analyzeExpr st e
| .call f args =>
  match alookup st.functionTable f with
  | some _ => analyzeExprs st args
  | none => analyzeExprs (st.addError ScopeError.UndefinedFunctionCalled f) args

/-- Validate an argument list left to right. -/
def analyzeExprs (st : AnalyzerState) : List Expr → AnalyzerState
| [] => st
| e :: es => analyzeExprs (analyzeExpr st e) es

end

mutual

/-- Modelled from the spec: statement validation — declarations go to the
innermost node; an assignment validates its left-hand identifier then its
right-hand side; each compound construct (plain block, if/else branches,
loop bodies) pushes a fresh child scope node before its contents and pops
it afterward; a for loop places its init declaration in one node that also
covers the body. -/
def analyzeStmt (st : AnalyzerState) : Stmt → AnalyzerState
| .varDecl x ty => st.declareVariable x ty false
| .assign x rhs =>
  match lookupRecursive st.scopeChain x with
  | some _ => analyzeExpr st rhs
  | none => analyzeExpr (st.addError ScopeError.UndeclaredVariableAccessed x) rhs
| .ifS c t e =>
  let st1 := (analyzeStmts (analyzeExpr st c).enterScope t).exitScope
  match e with
  | none => st1
  | some eb => (analyzeStmts st1.enterScope eb).exitScope
| .whileS c b => (analyzeStmts (analyzeExpr st c).enterScope b).exitScope
| .forS i c s b =>
  (analyzeStmts (analyzeStmt (analyzeExpr (analyzeStmt st.enterScope i) c) s) b).exitScope
| .block b => (analyzeStmts st.enterScope b).exitScope
| .exprS e => analyzeExpr st e
| .ret none => st
| .ret (some e) => analyzeExpr st e

/-- Validate a statement sequence in order, threading the state. -/
def analyzeStmts (st : AnalyzerState) : List Stmt → AnalyzerState
| [] => st
| s :: ss => analyzeStmts (analyzeStmt st s) ss

end

/-- Modelled from the spec: build the `FunctionSymbol` registered for a
top-level function (every occurrence is a definition, so `isDefined` is
true). -/
def makeFunctionSymbol (f : FunctionDecl) : FunctionSymbol :=
  ⟨f.name, f.returnType, f.parameters.map Parameter.type,
   f.parameters.map Parameter.name, true⟩

/-- Modelled from the spec, Phase 1 step 2: declare each top-level variable
in the root node in source order; conflicts accumulate as
`VariableRedefinition` errors and are not fatal. -/
def registerGlobals (st : AnalyzerState) : List GlobalVarDecl → AnalyzerState
| [] => st
| g :: gs => registerGlobals (st.declareVariable g.name g.type false) gs

/-- Modelled from the spec, Phase 1 step 3: register each top-level function
in source order; a conflict accumulates a `FunctionPrototypeRedefinition`
error, the duplicate is not inserted, and only successfully registered
functions are handed to Phase 2 (returned as the second component). -/
def registerFunctions (st : AnalyzerState) :
    List FunctionDecl → AnalyzerState × List FunctionDecl
| [] => (st, [])
| f :: fs =>
  match registerFunction st.functionTable (makeFunctionSymbol f) with
  | (tbl, true) =>
    let p := registerFunctions { st with functionTable := tbl } fs
    (p.1, f :: p.2)
  | (_, false) =>
    registerFunctions (st.addError ScopeError.FunctionPrototypeRedefinition f.name) fs

/-- Modelled from the spec, Phase 2 step 2: declare each parameter in the
function scope node in order, with `isParameter = true`; duplicates are
`VariableRedefinition` errors. -/
def declareParameters (st : AnalyzerState) : List Parameter → AnalyzerState
| [] => st
| p :: ps => declareParameters (st.declareVariable p.name p.type true) ps

/-- Modelled from the spec, Phase 2: analyze one function — push a scope
node whose parent is the root, declare the parameters, visit the body, pop
the function scope node when the body visit completes. -/
def analyzeFunction (st : AnalyzerState) (f : FunctionDecl) : AnalyzerState :=
  (analyzeStmts (declareParameters st.enterScope f.parameters) f.body).exitScope

/-- Phase 2 over the registered functions, in source order. -/
def analyzeFunctions (st : AnalyzerState) : List FunctionDecl → AnalyzerState
| [] => st
| f :: fs => analyzeFunctions (analyzeFunction st f) fs

/-- Fresh analyzer state: empty function table, the global root scope node
(level 0, no parent) as the whole active chain, empty error list. -/
def initialState : AnalyzerState :=
  ⟨[], [⟨0, []⟩], []⟩

/-- Phase 1 (RegisteringGlobals) on a fresh analyzer: globals then function
prototypes; also returns the registered functions for Phase 2. -/
def registrationPhase (p : ProgramNode) : AnalyzerState × List FunctionDecl :=
  registerFunctions (registerGlobals initialState p.globalVariables) p.functions

/-- Modelled from the spec: the full two-phase run of
`ScopeAnalyzer::analyze` on one program tree, returning the final analyzer
state (function table, scope structures and ordered error list). -/
def runAnalysis (p : ProgramNode) : AnalyzerState :=
  analyzeFunctions (registrationPhase p).1 (registrationPhase p).2

/-- Modelled from the spec: `ScopeAnalyzer::hasErrors`. -/
def AnalyzerState.hasErrors (st : AnalyzerState) : Bool :=
  !st.errors.isEmpty

/-- Modelled from the spec: `ScopeAnalyzer::analyze` — true means no errors
were accumulated over both phases. -/
def analyze (p : ProgramNode) : Bool :=
  !(runAnalysis p).hasErrors

/-- Outcome of one driver run of `main.cpp`, abstracting the observable
effects: process exit code, whether a lexer was constructed on the source
file, whether scope analysis was invoked, and which diagnostics were
printed. -/
structure DriverOutput where
  exitCode : Nat
  openedSourceFile : Bool
  ranScopeAnalysis : Bool
  printedUsage : Bool
  printedNullRootWarning : Bool
deriving DecidableEq, Repr

/-- Input environment of one driver run of `main.cpp`: the argv vector, the
value `yyparse()` returns, and the `program_root` the parser leaves behind. -/
structure DriverInput where
  args : List String
  parseReturn : Int
  programRoot : Option ProgramNode

/-- Embedding of `main` from `main.cpp`: with fewer than two arguments it
prints usage and returns 1 before touching the file; otherwise it lexes and
parses; on parse failure it returns 1; on parse success with a null
`program_root` it prints a warning and falls through to `return 0` without
running scope analysis; with a root it runs the analyzer and returns 1 on
failure, 0 on success. -/
def mainDriver (inp : DriverInput) : DriverOutput :=
  if inp.args.length < 2 then
    ⟨1, false, false, true, false⟩
  else if inp.parseReturn = 0 then
    match inp.programRoot with
    | some root =>
      if analyze root then ⟨0, true, true, false, false⟩
      else ⟨1, true, true, false, false⟩
    | none => ⟨0, true, false, false, true⟩
  else
    ⟨1, true, false, false, false⟩

mutual

/-- Node count of an expression (each node can contribute at most one
error when visited). -/
def exprSize : Expr → Nat
| .ident _ => 1
| .lit _ => 1
| .binop l r => 1 + exprSize l + exprSize r
| .unop e => 1 + exprSize e
| .call _ args => 1 + exprListSize args

/-- Node count of an expression list. -/
def exprListSize : List Expr → Nat
| [] => 0
| e :: es => exprSize e + exprListSize es

end

mutual

/-- Node count of a statement. -/
def stmtSize : Stmt → Nat
| .varDecl _ _ => 1
| .assign _ e => 1 + exprSize e
| .ifS c t e =>
  1 + exprSize c + stmtListSize t +
    (match e with
     | none => 0
     | some eb => stmtListSize eb)
| .whileS c b => 1 + exprSize c + stmtListSize b
| .forS i c s b => 1 + stmtSize i + exprSize c + stmtSize s + stmtListSize b
| .block b => 1 + stmtListSize b
| .exprS e => 1 + exprSize e
| .ret none => 1
| .ret (some e) => 1 + exprSize e

/-- Node count of a statement list. -/
def stmtListSize : List Stmt → Nat
| [] => 0
| s :: ss => stmtSize s + stmtListSize ss

end

/-- Error budget of one function body: one potential error per parameter
declaration plus one per body node. -/
def bodyBudget (f : FunctionDecl) : Nat :=
  f.parameters.length + stmtListSize f.body

/-- Node count of a whole program tree: one per global declaration, one per
function registration, plus each function's body budget. -/
def programSize (p : ProgramNode) : Nat :=
  p.globalVariables.length + p.functions.length +
    (p.functions.map bodyBudget).sum

/-- Probing an appended association list finds an existing binding of the
left part first. -/
theorem alookup_append_some {α : Type} {l1 : List (String × α)} {x : String}
    {v : α} (l2 : List (String × α)) (h : alookup l1 x = some v) :
    alookup (l1 ++ l2) x = some v := by
  induction l1 with
  | nil => simp [alookup] at h
  | cons p t ih =>
    obtain ⟨k, w⟩ := p
    by_cases hk : k = x
    · subst hk
      simp only [alookup, if_pos rfl] at h
      simp only [List.cons_append, alookup, if_pos rfl]
      exact h
    · simp only [alookup, if_neg hk] at h
      simp only [List.cons_append, alookup, if_neg hk]
      exact ih h

/-- Probing an appended association list falls through to the right part
when the key is absent on the left. -/
theorem alookup_append_none {α : Type} {l1 : List (String × α)} {x : String}
    (l2 : List (String × α)) (h : alookup l1 x = none) :
    alookup (l1 ++ l2) x = alookup l2 x := by
  induction l1 with
  | nil => rfl
  | cons p t ih =>
    obtain ⟨k, w⟩ := p
    by_cases hk : k = x
    · simp [alookup, hk] at h
    · simp only [alookup, if_neg hk] at h
      simp only [List.cons_append, alookup, if_neg hk]
      exact ih h

/-- A probe fails exactly when the key is not among the stored keys. -/
theorem alookup_eq_none {α : Type} (l : List (String × α)) (x : String) :
    alookup l x = none ↔ x ∉ l.map Prod.fst := by
  induction l with
  | nil => simp [alookup]
  | cons p t ih =>
    obtain ⟨k, w⟩ := p
    by_cases hk : k = x
    · simp [alookup, hk]
    · simp [alookup, hk, ih, Ne.symm hk]

/-- A one-entry association list resolves its own key. -/
theorem alookup_single_self {α : Type} (x : String) (v : α) :
    alookup [(x, v)] x = some v := by
  simp [alookup]

/-- Well-formed batch of newly appended errors: at most `bound` of them
(one per visited node), and every `UndefinedFunctionCalled` entry cites a
name absent from the function table `t`. -/
def ErrsOk (t : List (String × FunctionSymbol)) (bound : Nat)
    (new : List (ScopeError × String)) : Prop :=
  new.length ≤ bound ∧
    ∀ x, (ScopeError.UndefinedFunctionCalled, x) ∈ new → alookup t x = none

/-- The empty error batch is well formed for any budget. -/
theorem ErrsOk.nil {t : List (String × FunctionSymbol)} {bound : Nat} :
    ErrsOk t bound [] := by
  constructor
  · simp
  · intro x hx
    simp at hx

/-- Well-formed batches concatenate, adding their budgets. -/
theorem ErrsOk.append {t : List (String × FunctionSymbol)} {a b : Nat}
    {n1 n2 : List (ScopeError × String)} (h1 : ErrsOk t a n1)
    (h2 : ErrsOk t b n2) : ErrsOk t (a + b) (n1 ++ n2) := by
  obtain ⟨hl1, hm1⟩ := h1
  obtain ⟨hl2, hm2⟩ := h2
  constructor
  · simp only [List.length_append]
    omega
  · intro x hx
    rcases List.mem_append.mp hx with hx | hx
    · exact hm1 x hx
    · exact hm2 x hx

/-- A well-formed batch stays well formed under a larger budget. -/
theorem ErrsOk.widen {t : List (String × FunctionSymbol)} {a b : Nat}
    {n : List (ScopeError × String)} (h : ErrsOk t a n) (hab : a ≤ b) :
    ErrsOk t b n :=
  ⟨h.1.trans hab, h.2⟩

/-- A single error of a kind other than `UndefinedFunctionCalled` is a
well-formed batch of budget 1. -/
theorem ErrsOk.single_other {t : List (String × FunctionSymbol)}
    {k : ScopeError} (x : String)
    (hk : k ≠ ScopeError.UndefinedFunctionCalled) : ErrsOk t 1 [(k, x)] := by
  constructor
  · simp
  · intro y hy
    simp only [List.mem_singleton, Prod.mk.injEq] at hy
    exact absurd hy.1.symm hk

/-- A single `UndefinedFunctionCalled` error is well formed when the cited
name is indeed absent from the table. -/
theorem ErrsOk.single_undef {t : List (String × FunctionSymbol)} {f : String}
    (h : alookup t f = none) : ErrsOk t 1 [(ScopeError.UndefinedFunctionCalled, f)] := by
  constructor
  · simp
  · intro y hy
    simp only [List.mem_singleton, Prod.mk.injEq] at hy
    exact hy.2 ▸ h

/-- Declaring a variable never touches the function table. -/
theorem declareVariable_functionTable (st : AnalyzerState) (x ty : String)
    (b : Bool) : (st.declareVariable x ty b).functionTable = st.functionTable := by
  unfold AnalyzerState.declareVariable
  split
  · rfl
  · split <;> rfl

/-- Declaring a variable touches at most the innermost scope node: the tail
and the length of the active chain are preserved. -/
theorem declareVariable_chainShape (st : AnalyzerState) (x ty : String)
    (b : Bool) :
    (st.declareVariable x ty b).scopeChain.tail = st.scopeChain.tail ∧
    (st.declareVariable x ty b).scopeChain.length = st.scopeChain.length := by
  unfold AnalyzerState.declareVariable
  split
  · exact ⟨rfl, rfl⟩
  next n rest heq =>
    split
    · simp [heq]
    · exact ⟨rfl, rfl⟩

/-- Declaring a variable appends at most one error, and only of kind
`VariableRedefinition`. -/
theorem declareVariable_errors (st : AnalyzerState) (x ty : String) (b : Bool)
    (t : List (String × FunctionSymbol)) :
    ∃ new, (st.declareVariable x ty b).errors = st.errors ++ new ∧
      ErrsOk t 1 new := by
  unfold AnalyzerState.declareVariable
  split
  · exact ⟨[], by simp, ErrsOk.nil⟩
  · split
    · exact ⟨[], by simp, ErrsOk.nil⟩
    · exact ⟨[(ScopeError.VariableRedefinition, x)], rfl,
        ErrsOk.single_other x (by simp)⟩

mutual

/-- Expression validation never touches the function table or the active
scope chain. -/
theorem analyzeExpr_frame (e : Expr) : ∀ st : AnalyzerState,
    (analyzeExpr st e).functionTable = st.functionTable ∧
    (analyzeExpr st e).scopeChain = st.scopeChain := by
  cases e with
  | ident x =>
    intro st
    simp only [analyzeExpr]
    split <;> exact ⟨rfl, rfl⟩
  | lit n => intro st; exact ⟨rfl, rfl⟩
  | binop l r =>
    intro st
    obtain ⟨h1, h2⟩ := analyzeExpr_frame l st
    obtain ⟨h3, h4⟩ := analyzeExpr_frame r (analyzeExpr st l)
    simp only [analyzeExpr]
    exact ⟨h3.trans h1, h4.trans h2⟩
  | unop e1 =>
    intro st
    simpa only [analyzeExpr] using analyzeExpr_frame e1 st
  | call f args =>
    intro st
    simp only [analyzeExpr]
    split
    · exact analyzeExprs_frame args st
    · obtain ⟨h1, h2⟩ :=
        analyzeExprs_frame args (st.addError ScopeError.UndefinedFunctionCalled f)
      exact ⟨h1, h2⟩

/-- Argument-list validation never touches the function table or the active
scope chain. -/
theorem analyzeExprs_frame (es : List Expr) : ∀ st : AnalyzerState,
    (analyzeExprs st es).functionTable = st.functionTable ∧
    (analyzeExprs st es).scopeChain = st.scopeChain := by
  cases es with
  | nil => intro st; exact ⟨rfl, rfl⟩
  | cons e es1 =>
    intro st
    obtain ⟨h1, h2⟩ := analyzeExpr_frame e st
    obtain ⟨h3, h4⟩ := analyzeExprs_frame es1 (analyzeExpr st e)
    simp only [analyzeExprs]
    exact ⟨h3.trans h1, h4.trans h2⟩

end

mutual

/-- Statement validation never touches the function table, and touches at
most the innermost node of the active scope chain: every scope node a
compound statement pushes is popped again when its visit completes, so the
tail and the length of the chain are preserved. -/
theorem analyzeStmt_frame (s : Stmt) : ∀ st : AnalyzerState,
    (analyzeStmt st s).functionTable = st.functionTable ∧
    (analyzeStmt st s).scopeChain.tail = st.scopeChain.tail ∧
    (analyzeStmt st s).scopeChain.length = st.scopeChain.length := by
  cases s with
  | varDecl x ty =>
    intro st
    simp only [analyzeStmt]
    exact ⟨declareVariable_functionTable st x ty false,
      (declareVariable_chainShape st x ty false).1,
      (declareVariable_chainShape st x ty false).2⟩
  | assign x rhs =>
    intro st
    simp only [analyzeStmt]
    split
    · obtain ⟨h1, h2⟩ := analyzeExpr_frame rhs st
      exact ⟨h1, by rw [h2], by rw [h2]⟩
    · obtain ⟨h1, h2⟩ :=
        analyzeExpr_frame rhs (st.addError ScopeError.UndeclaredVariableAccessed x)
      exact ⟨h1, by rw [h2]; rfl, by rw [h2]; rfl⟩
  | ifS c t e =>
    cases e with
    | none =>
      intro st
      simp only [analyzeStmt]
      obtain ⟨ha1, ha2⟩ := analyzeExpr_frame c st
      obtain ⟨hb1, hb2, hb3⟩ := analyzeStmts_frame t (analyzeExpr st c).enterScope
      have hchain :
          (analyzeStmts (analyzeExpr st c).enterScope t).exitScope.scopeChain
            = st.scopeChain := by
        show (analyzeStmts (analyzeExpr st c).enterScope t).scopeChain.tail
          = st.scopeChain
        rw [hb2]
        exact ha2
      exact ⟨hb1.trans ha1, by rw [hchain], by rw [hchain]⟩
    | some eb =>
      intro st
      simp only [analyzeStmt]
      obtain ⟨ha1, ha2⟩ := analyzeExpr_frame c st
      obtain ⟨hb1, hb2, hb3⟩ := analyzeStmts_frame t (analyzeExpr st c).enterScope
      have hchain :
          (analyzeStmts (analyzeExpr st c).enterScope t).exitScope.scopeChain
            = st.scopeChain := by
        show (analyzeStmts (analyzeExpr st c).enterScope t).scopeChain.tail
          = st.scopeChain
        rw [hb2]
        exact ha2
      obtain ⟨hc1, hc2, hc3⟩ := analyzeStmts_frame eb
        (analyzeStmts (analyzeExpr st c).enterScope t).exitScope.enterScope
      have hchain2 :
          (analyzeStmts
            (analyzeStmts (analyzeExpr st c).enterScope t).exitScope.enterScope
            eb).exitScope.scopeChain = st.scopeChain := by
        show (analyzeStmts
            (analyzeStmts (analyzeExpr st c).enterScope t).exitScope.enterScope
            eb).scopeChain.tail = st.scopeChain
        rw [hc2]
        exact hchain
      exact ⟨(hc1.trans hb1).trans ha1, by rw [hchain2], by rw [hchain2]⟩
  | whileS c b =>
    intro st
    simp only [analyzeStmt]
    obtain ⟨ha1, ha2⟩ := analyzeExpr_frame c st
    obtain ⟨hb1, hb2, hb3⟩ := analyzeStmts_frame b (analyzeExpr st c).enterScope
    have hchain :
        (analyzeStmts (analyzeExpr st c).enterScope b).exitScope.scopeChain
          = st.scopeChain := by
      show (analyzeStmts (analyzeExpr st c).enterScope b).scopeChain.tail
        = st.scopeChain
      rw [hb2]
      exact ha2
    exact ⟨hb1.trans ha1, by rw [hchain], by rw [hchain]⟩
  | forS i c s2 b =>
    intro st
    simp only [analyzeStmt]
    obtain ⟨hi1, hi2, hi3⟩ := analyzeStmt_frame i st.enterScope
    obtain ⟨hc1, hc2⟩ := analyzeExpr_frame c (analyzeStmt st.enterScope i)
    obtain ⟨hs1, hs2, hs3⟩ :=
      analyzeStmt_frame s2 (analyzeExpr (analyzeStmt st.enterScope i) c)
    obtain ⟨hb1, hb2, hb3⟩ := analyzeStmts_frame b
      (analyzeStmt (analyzeExpr (analyzeStmt st.enterScope i) c) s2)
    have hchain :
        (analyzeStmts
          (analyzeStmt (analyzeExpr (analyzeStmt st.enterScope i) c) s2)
          b).exitScope.scopeChain = st.scopeChain := by
      show (analyzeStmts
          (analyzeStmt (analyzeExpr (analyzeStmt st.enterScope i) c) s2)
          b).scopeChain.tail = st.scopeChain
      rw [hb2, hs2, hc2, hi2]
      rfl
    exact ⟨((hb1.trans hs1).trans hc1).trans hi1, by rw [hchain], by rw [hchain]⟩
  | block b =>
    intro st
    simp only [analyzeStmt]
    obtain ⟨hb1, hb2, hb3⟩ := analyzeStmts_frame b st.enterScope
    have hchain : (analyzeStmts st.enterScope b).exitScope.scopeChain
        = st.scopeChain := by
      show (analyzeStmts st.enterScope b).scopeChain.tail = st.scopeChain
      rw [hb2]
      rfl
    exact ⟨hb1, by rw [hchain], by rw [hchain]⟩
  | exprS e =>
    intro st
    simp only [analyzeStmt]
    obtain ⟨h1, h2⟩ := analyzeExpr_frame e st
    exact ⟨h1, by rw [h2], by rw [h2]⟩
  | ret e =>
    cases e with
    | none => intro st; exact ⟨rfl, rfl, rfl⟩
    | some e1 =>
      intro st
      simp only [analyzeStmt]
      obtain ⟨h1, h2⟩ := analyzeExpr_frame e1 st
      exact ⟨h1, by rw [h2], by rw [h2]⟩

/-- Statement-sequence validation never touches the function table and
preserves the tail and the length of the active scope chain. -/
theorem analyzeStmts_frame (ss : List Stmt) : ∀ st : AnalyzerState,
    (analyzeStmts st ss).functionTable = st.functionTable ∧
    (analyzeStmts st ss).scopeChain.tail = st.scopeChain.tail ∧
    (analyzeStmts st ss).scopeChain.length = st.scopeChain.length := by
  cases ss with
  | nil => intro st; exact ⟨rfl, rfl, rfl⟩
  | cons s ss1 =>
    intro st
    simp only [analyzeStmts]
    obtain ⟨h1, h2, h3⟩ := analyzeStmt_frame s st
    obtain ⟨h4, h5, h6⟩ := analyzeStmts_frame ss1 (analyzeStmt st s)
    exact ⟨h4.trans h1, h5.trans h2, h6.trans h3⟩

end

mutual

/-- Validating an expression appends a well-formed error batch: at most one
error per visited node, and every `UndefinedFunctionCalled` entry cites a
name the (unchanged) function table does not contain. -/
theorem analyzeExpr_errors (e : Expr) : ∀ st : AnalyzerState,
    ∃ new, (analyzeExpr st e).errors = st.errors ++ new ∧
      ErrsOk st.functionTable (exprSize e) new := by
  cases e with
  | ident x =>
    intro st
    simp only [analyzeExpr]
    split
    · exact ⟨[], by simp, ErrsOk.nil⟩
    · exact ⟨[(ScopeError.UndeclaredVariableAccessed, x)], rfl,
        (ErrsOk.single_other x (by simp)).widen (by simp [exprSize])⟩
  | lit n =>
    intro st
    exact ⟨[], by simp [analyzeExpr], ErrsOk.nil⟩
  | binop l r =>
    intro st
    obtain ⟨n1, h1, ho1⟩ := analyzeExpr_errors l st
    obtain ⟨n2, h2, ho2⟩ := analyzeExpr_errors r (analyzeExpr st l)
    rw [(analyzeExpr_frame l st).1] at ho2
    refine ⟨n1 ++ n2, ?_, ?_⟩
    · simp only [analyzeExpr]
      rw [h2, h1, List.append_assoc]
    · exact (ho1.append ho2).widen
        (by simp only [exprSize]; omega)
  | unop e1 =>
    intro st
    obtain ⟨n1, h1, ho1⟩ := analyzeExpr_errors e1 st
    exact ⟨n1, by simp only [analyzeExpr]; exact h1,
      ho1.widen (by simp only [exprSize]; omega)⟩
  | call f args =>
    intro st
    simp only [analyzeExpr]
    split
    · obtain ⟨n1, h1, ho1⟩ := analyzeExprs_errors args st
      exact ⟨n1, h1, ho1.widen (by simp only [exprSize]; omega)⟩
    next heq =>
      obtain ⟨n1, h1, ho1⟩ :=
        analyzeExprs_errors args (st.addError ScopeError.UndefinedFunctionCalled f)
      refine ⟨[(ScopeError.UndefinedFunctionCalled, f)] ++ n1, ?_, ?_⟩
      · rw [h1]
        simp [AnalyzerState.addError]
      · exact ((ErrsOk.single_undef heq).append ho1).widen
          (by simp only [exprSize]; omega)

/-- Validating an argument list appends a well-formed error batch. -/
theorem analyzeExprs_errors (es : List Expr) : ∀ st : AnalyzerState,
    ∃ new, (analyzeExprs st es).errors = st.errors ++ new ∧
      ErrsOk st.functionTable (exprListSize es) new := by
  cases es with
  | nil =>
    intro st
    exact ⟨[], by simp [analyzeExprs], ErrsOk.nil⟩
  | cons e es1 =>
    intro st
    obtain ⟨n1, h1, ho1⟩ := analyzeExpr_errors e st
    obtain ⟨n2, h2, ho2⟩ := analyzeExprs_errors es1 (analyzeExpr st e)
    rw [(analyzeExpr_frame e st).1] at ho2
    refine ⟨n1 ++ n2, ?_, ?_⟩
    · simp only [analyzeExprs]
      rw [h2, h1, List.append_assoc]
    · exact (ho1.append ho2).widen (by simp only [exprListSize]; omega)

end

@[simp] theorem enterScope_errors (st : AnalyzerState) :
    st.enterScope.errors = st.errors := rfl

@[simp] theorem enterScope_functionTable (st : AnalyzerState) :
    st.enterScope.functionTable = st.functionTable := rfl

@[simp] theorem exitScope_errors (st : AnalyzerState) :
    st.exitScope.errors = st.errors := rfl

@[simp] theorem exitScope_functionTable (st : AnalyzerState) :
    st.exitScope.functionTable = st.functionTable := rfl

@[simp] theorem addError_errors (st : AnalyzerState) (k : ScopeError)
    (x : String) : (st.addError k x).errors = st.errors ++ [(k, x)] := rfl

@[simp] theorem addError_functionTable (st : AnalyzerState) (k : ScopeError)
    (x : String) : (st.addError k x).functionTable = st.functionTable := rfl

@[simp] theorem addError_scopeChain (st : AnalyzerState) (k : ScopeError)
    (x : String) : (st.addError k x).scopeChain = st.scopeChain := rfl

mutual

/-- Validating a statement appends a well-formed error batch: at most one
error per visited node, and every `UndefinedFunctionCalled` entry cites a
name the (unchanged) function table does not contain. -/
theorem analyzeStmt_errors (s : Stmt) : ∀ st : AnalyzerState,
    ∃ new, (analyzeStmt st s).errors = st.errors ++ new ∧
      ErrsOk st.functionTable (stmtSize s) new := by
  cases s with
  | varDecl x ty =>
    intro st
    obtain ⟨new, h, ho⟩ := declareVariable_errors st x ty false st.functionTable
    exact ⟨new, by simp only [analyzeStmt]; exact h,
      ho.widen (by simp [stmtSize])⟩
  | assign x rhs =>
    intro st
    simp only [analyzeStmt]
    split
    · obtain ⟨nr, h1, ho1⟩ := analyzeExpr_errors rhs st
      exact ⟨nr, h1, ho1.widen (by simp only [stmtSize]; omega)⟩
    · obtain ⟨nr, h1, ho1⟩ :=
        analyzeExpr_errors rhs (st.addError ScopeError.UndeclaredVariableAccessed x)
      rw [addError_functionTable] at ho1
      refine ⟨[(ScopeError.UndeclaredVariableAccessed, x)] ++ nr, ?_, ?_⟩
      · simp only [h1, addError_errors, List.append_assoc]
      · exact ((ErrsOk.single_other x (by simp)).append ho1).widen
          (by simp only [stmtSize]; omega)
  | ifS c t e =>
    cases e with
    | none =>
      intro st
      obtain ⟨nc, h1, ho1⟩ := analyzeExpr_errors c st
      obtain ⟨nt, h2, ho2⟩ := analyzeStmts_errors t (analyzeExpr st c).enterScope
      rw [enterScope_functionTable, (analyzeExpr_frame c st).1] at ho2
      refine ⟨nc ++ nt, ?_, ?_⟩
      · simp only [analyzeStmt, exitScope_errors, h2, enterScope_errors, h1,
          List.append_assoc]
      · exact (ho1.append ho2).widen (by simp only [stmtSize, stmtListSize]; omega)
    | some eb =>
      intro st
      obtain ⟨nc, h1, ho1⟩ := analyzeExpr_errors c st
      obtain ⟨nt, h2, ho2⟩ := analyzeStmts_errors t (analyzeExpr st c).enterScope
      obtain ⟨ne2, h3, ho3⟩ := analyzeStmts_errors eb
        ((analyzeStmts (analyzeExpr st c).enterScope t).exitScope.enterScope)
      rw [enterScope_functionTable, (analyzeExpr_frame c st).1] at ho2
      rw [enterScope_functionTable, exitScope_functionTable,
        (analyzeStmts_frame t ((analyzeExpr st c).enterScope)).1,
        enterScope_functionTable, (analyzeExpr_frame c st).1] at ho3
      refine ⟨nc ++ nt ++ ne2, ?_, ?_⟩
      · simp only [analyzeStmt, exitScope_errors, enterScope_errors, h3, h2, h1,
          List.append_assoc]
      · exact ((ho1.append ho2).append ho3).widen
          (by simp only [stmtSize]; omega)
  | whileS c b =>
    intro st
    obtain ⟨nc, h1, ho1⟩ := analyzeExpr_errors c st
    obtain ⟨nb, h2, ho2⟩ := analyzeStmts_errors b (analyzeExpr st c).enterScope
    rw [enterScope_functionTable, (analyzeExpr_frame c st).1] at ho2
    refine ⟨nc ++ nb, ?_, ?_⟩
    · simp only [analyzeStmt, exitScope_errors, h2, enterScope_errors, h1,
        List.append_assoc]
    · exact (ho1.append ho2).widen (by simp only [stmtSize]; omega)
  | forS i c s2 b =>
    intro st
    obtain ⟨ni, h1, ho1⟩ := analyzeStmt_errors i st.enterScope
    obtain ⟨nc, h2, ho2⟩ := analyzeExpr_errors c (analyzeStmt st.enterScope i)
    obtain ⟨ns, h3, ho3⟩ :=
      analyzeStmt_errors s2 (analyzeExpr (analyzeStmt st.enterScope i) c)
    obtain ⟨nb, h4, ho4⟩ := analyzeStmts_errors b
      (analyzeStmt (analyzeExpr (analyzeStmt st.enterScope i) c) s2)
    rw [enterScope_functionTable] at ho1
    rw [(analyzeStmt_frame i st.enterScope).1, enterScope_functionTable] at ho2
    rw [(analyzeExpr_frame c (analyzeStmt st.enterScope i)).1,
      (analyzeStmt_frame i st.enterScope).1, enterScope_functionTable] at ho3
    rw [(analyzeStmt_frame s2 (analyzeExpr (analyzeStmt st.enterScope i) c)).1,
      (analyzeExpr_frame c (analyzeStmt st.enterScope i)).1,
      (analyzeStmt_frame i st.enterScope).1, enterScope_functionTable] at ho4
    refine ⟨ni ++ nc ++ ns ++ nb, ?_, ?_⟩
    · simp only [analyzeStmt, exitScope_errors, h4, h3, h2, h1,
        enterScope_errors, List.append_assoc]
    · exact (((ho1.append ho2).append ho3).append ho4).widen
        (by simp only [stmtSize]; omega)
  | block b =>
    intro st
    obtain ⟨nb, h1, ho1⟩ := analyzeStmts_errors b st.enterScope
    rw [enterScope_functionTable] at ho1
    refine ⟨nb, ?_, ?_⟩
    · simp only [analyzeStmt, exitScope_errors, h1, enterScope_errors]
    · exact ho1.widen (by simp only [stmtSize]; omega)
  | exprS e =>
    intro st
    obtain ⟨n1, h1, ho1⟩ := analyzeExpr_errors e st
    exact ⟨n1, by simp only [analyzeStmt]; exact h1,
      ho1.widen (by simp only [stmtSize]; omega)⟩
  | ret e =>
    cases e with
    | none =>
      intro st
      exact ⟨[], by simp [analyzeStmt], ErrsOk.nil⟩
    | some e1 =>
      intro st
      obtain ⟨n1, h1, ho1⟩ := analyzeExpr_errors e1 st
      exact ⟨n1, by simp only [analyzeStmt]; exact h1,
        ho1.widen (by simp only [stmtSize]; omega)⟩

/-- Validating a statement sequence appends a well-formed error batch. -/
theorem analyzeStmts_errors (ss : List Stmt) : ∀ st : AnalyzerState,
    ∃ new, (analyzeStmts st ss).errors = st.errors ++ new ∧
      ErrsOk st.functionTable (stmtListSize ss) new := by
  cases ss with
  | nil =>
    intro st
    exact ⟨[], by simp [analyzeStmts], ErrsOk.nil⟩
  | cons s ss1 =>
    intro st
    obtain ⟨n1, h1, ho1⟩ := analyzeStmt_errors s st
    obtain ⟨n2, h2, ho2⟩ := analyzeStmts_errors ss1 (analyzeStmt st s)
    rw [(analyzeStmt_frame s st).1] at ho2
    refine ⟨n1 ++ n2, ?_, ?_⟩
    · simp only [analyzeStmts, h2, h1, List.append_assoc]
    · exact (ho1.append ho2).widen (by simp only [stmtListSize]; omega)

end

@[simp] theorem makeFunctionSymbol_name (f : FunctionDecl) :
    (makeFunctionSymbol f).name = f.name := rfl

/-- Characterization of a successful registration: the name was absent and
the symbol is appended. -/
theorem registerFunction_true {tbl t2 : List (String × FunctionSymbol)}
    {f : FunctionSymbol} (h : registerFunction tbl f = (t2, true)) :
    alookup tbl f.name = none ∧ t2 = tbl ++ [(f.name, f)] := by
  unfold registerFunction at h
  split at h
  · simp at h
  next heq =>
    simp only [Prod.mk.injEq] at h
    exact ⟨heq, h.1.symm⟩

/-- Characterization of a rejected registration: the table already holds an
entry for the name and is returned untouched. -/
theorem registerFunction_false {tbl t2 : List (String × FunctionSymbol)}
    {f : FunctionSymbol} (h : registerFunction tbl f = (t2, false)) :
    t2 = tbl ∧ ∃ s, alookup tbl f.name = some s := by
  unfold registerFunction at h
  split at h
  next s heq =>
    simp only [Prod.mk.injEq] at h
    exact ⟨h.1.symm, s, heq⟩
  · simp at h

/-- Registering globals never touches the function table, and touches at
most the innermost (root) scope node. -/
theorem registerGlobals_frame (gs : List GlobalVarDecl) : ∀ st : AnalyzerState,
    (registerGlobals st gs).functionTable = st.functionTable ∧
    (registerGlobals st gs).scopeChain.tail = st.scopeChain.tail ∧
    (registerGlobals st gs).scopeChain.length = st.scopeChain.length := by
  induction gs with
  | nil => intro st; exact ⟨rfl, rfl, rfl⟩
  | cons g gs1 ih =>
    intro st
    obtain ⟨h1, h2, h3⟩ := ih (st.declareVariable g.name g.type false)
    simp only [registerGlobals]
    exact ⟨h1.trans (declareVariable_functionTable st g.name g.type false),
      h2.trans (declareVariable_chainShape st g.name g.type false).1,
      h3.trans (declareVariable_chainShape st g.name g.type false).2⟩

/-- Registering globals appends a well-formed error batch (only
`VariableRedefinition` entries, at most one per declaration). -/
theorem registerGlobals_errors (gs : List GlobalVarDecl) :
    ∀ (st : AnalyzerState) (t : List (String × FunctionSymbol)),
    ∃ new, (registerGlobals st gs).errors = st.errors ++ new ∧
      ErrsOk t gs.length new := by
  induction gs with
  | nil => intro st t; exact ⟨[], by simp [registerGlobals], ErrsOk.nil⟩
  | cons g gs1 ih =>
    intro st t
    obtain ⟨n1, h1, ho1⟩ := declareVariable_errors st g.name g.type false t
    obtain ⟨n2, h2, ho2⟩ := ih (st.declareVariable g.name g.type false) t
    refine ⟨n1 ++ n2, ?_, ?_⟩
    · simp only [registerGlobals, h2, h1, List.append_assoc]
    · exact (ho1.append ho2).widen (by simp [List.length_cons]; omega)

/-- Declaring parameters never touches the function table, and touches at
most the innermost (function) scope node. -/
theorem declareParameters_frame (ps : List Parameter) : ∀ st : AnalyzerState,
    (declareParameters st ps).functionTable = st.functionTable ∧
    (declareParameters st ps).scopeChain.tail = st.scopeChain.tail ∧
    (declareParameters st ps).scopeChain.length = st.scopeChain.length := by
  induction ps with
  | nil => intro st; exact ⟨rfl, rfl, rfl⟩
  | cons p ps1 ih =>
    intro st
    obtain ⟨h1, h2, h3⟩ := ih (st.declareVariable p.name p.type true)
    simp only [declareParameters]
    exact ⟨h1.trans (declareVariable_functionTable st p.name p.type true),
      h2.trans (declareVariable_chainShape st p.name p.type true).1,
      h3.trans (declareVariable_chainShape st p.name p.type true).2⟩

/-- Declaring parameters appends a well-formed error batch (only
`VariableRedefinition` entries, at most one per parameter). -/
theorem declareParameters_errors (ps : List Parameter) :
    ∀ (st : AnalyzerState) (t : List (String × FunctionSymbol)),
    ∃ new, (declareParameters st ps).errors = st.errors ++ new ∧
      ErrsOk t ps.length new := by
  induction ps with
  | nil => intro st t; exact ⟨[], by simp [declareParameters], ErrsOk.nil⟩
  | cons p ps1 ih =>
    intro st t
    obtain ⟨n1, h1, ho1⟩ := declareVariable_errors st p.name p.type true t
    obtain ⟨n2, h2, ho2⟩ := ih (st.declareVariable p.name p.type true) t
    refine ⟨n1 ++ n2, ?_, ?_⟩
    · simp only [declareParameters, h2, h1, List.append_assoc]
    · exact (ho1.append ho2).widen (by simp [List.length_cons]; omega)

/-- Function registration never touches the scope chain. -/
theorem registerFunctions_chain (fs : List FunctionDecl) : ∀ st : AnalyzerState,
    (registerFunctions st fs).1.scopeChain = st.scopeChain := by
  induction fs with
  | nil => intro st; rfl
  | cons f fs1 ih =>
    intro st
    simp only [registerFunctions]
    split
    · exact ih _
    · exact ih _

/-- Function registration appends a well-formed error batch (only
`FunctionPrototypeRedefinition` entries, at most one per declaration). -/
theorem registerFunctions_errors (fs : List FunctionDecl) :
    ∀ (st : AnalyzerState) (t : List (String × FunctionSymbol)),
    ∃ new, (registerFunctions st fs).1.errors = st.errors ++ new ∧
      ErrsOk t fs.length new := by
  induction fs with
  | nil => intro st t; exact ⟨[], by simp [registerFunctions], ErrsOk.nil⟩
  | cons f fs1 ih =>
    intro st t
    simp only [registerFunctions]
    split
    next tbl heq =>
      obtain ⟨n2, h2, ho2⟩ := ih { st with functionTable := tbl } t
      exact ⟨n2, h2, ho2.widen (by simp [List.length_cons])⟩
    · obtain ⟨n2, h2, ho2⟩ :=
        ih (st.addError ScopeError.FunctionPrototypeRedefinition f.name) t
      refine ⟨[(ScopeError.FunctionPrototypeRedefinition, f.name)] ++ n2, ?_, ?_⟩
      · simp only [h2, addError_errors, List.append_assoc]
      · exact ((ErrsOk.single_other f.name (by simp)).append ho2).widen
          (by simp [List.length_cons]; omega)

/-- Existing table entries survive any further registrations (the first
entry for a name always wins). -/
theorem registerFunctions_mono (fs : List FunctionDecl) :
    ∀ (st : AnalyzerState) (x : String) (s : FunctionSymbol),
    alookup st.functionTable x = some s →
    alookup (registerFunctions st fs).1.functionTable x = some s := by
  induction fs with
  | nil => intro st x s h; exact h
  | cons f fs1 ih =>
    intro st x s h
    simp only [registerFunctions]
    split
    next tbl heq =>
      obtain ⟨hnone, htbl⟩ := registerFunction_true heq
      refine ih { st with functionTable := tbl } x s ?_
      show alookup tbl x = some s
      rw [htbl]
      exact alookup_append_some _ h
    · exact ih _ x s h

/-- After registration, every declared top-level function name resolves in
the function table. -/
theorem registerFunctions_registered (fs : List FunctionDecl) :
    ∀ (st : AnalyzerState) (f : String),
    f ∈ fs.map FunctionDecl.name →
    ∃ s, alookup (registerFunctions st fs).1.functionTable f = some s := by
  induction fs with
  | nil => intro st f h; simp at h
  | cons g fs1 ih =>
    intro st f hmem
    simp only [List.map_cons, List.mem_cons] at hmem
    simp only [registerFunctions]
    split
    next tbl heq =>
      obtain ⟨hnone, htbl⟩ := registerFunction_true heq
      rcases hmem with hf | hf
      · subst hf
        refine ⟨makeFunctionSymbol g, registerFunctions_mono fs1 _ _ _ ?_⟩
        show alookup tbl g.name = some (makeFunctionSymbol g)
        rw [htbl]
        rw [alookup_append_none _ (by simpa using hnone)]
        exact alookup_single_self _ _
      · exact ih _ f hf
    next heq =>
      obtain ⟨htbl, s, hsome⟩ := registerFunction_false heq
      rcases hmem with hf | hf
      · subst hf
        exact ⟨s, registerFunctions_mono fs1 _ _ _ (by simpa using hsome)⟩
      · exact ih _ f hf

/-- Registration preserves distinctness of the stored function names. -/
theorem registerFunctions_keysNodup (fs : List FunctionDecl) :
    ∀ st : AnalyzerState, (st.functionTable.map Prod.fst).Nodup →
    ((registerFunctions st fs).1.functionTable.map Prod.fst).Nodup := by
  induction fs with
  | nil => intro st h; exact h
  | cons f fs1 ih =>
    intro st hnd
    simp only [registerFunctions]
    split
    next tbl heq =>
      obtain ⟨hnone, htbl⟩ := registerFunction_true heq
      refine ih { st with functionTable := tbl } ?_
      show (tbl.map Prod.fst).Nodup
      rw [htbl]
      simp only [List.map_append, List.map_cons, List.map_nil]
      rw [List.nodup_append]
      refine ⟨hnd, List.nodup_singleton _, ?_⟩
      intro a ha hb
      simp only [List.mem_singleton] at hb
      subst hb
      exact absurd ha ((alookup_eq_none _ _).mp (by simpa using hnone))
    · exact ih _ hnd

/-- The functions handed to Phase 2 are drawn from the declared ones, so
their total body budget is no larger. -/
theorem registerFunctions_budget (fs : List FunctionDecl) :
    ∀ st : AnalyzerState,
    (((registerFunctions st fs).2.map bodyBudget).sum) ≤
      ((fs.map bodyBudget).sum) := by
  induction fs with
  | nil => intro st; simp [registerFunctions]
  | cons f fs1 ih =>
    intro st
    simp only [registerFunctions, List.map_cons, List.sum_cons]
    split
    · simp only [List.map_cons, List.sum_cons]
      exact Nat.add_le_add_left (ih _) _
    · exact (ih _).trans (Nat.le_add_left _ _)

/-- Analyzing one function body leaves the function table untouched and
restores the active scope chain exactly (the function scope node pushed at
entry is popped at exit). -/
theorem analyzeFunction_frame (st : AnalyzerState) (f : FunctionDecl) :
    (analyzeFunction st f).functionTable = st.functionTable ∧
    (analyzeFunction st f).scopeChain = st.scopeChain := by
  unfold analyzeFunction
  obtain ⟨hp1, hp2, hp3⟩ := declareParameters_frame f.parameters st.enterScope
  obtain ⟨hb1, hb2, hb3⟩ :=
    analyzeStmts_frame f.body (declareParameters st.enterScope f.parameters)
  constructor
  · simp only [exitScope_functionTable]
    exact (hb1.trans hp1).trans (enterScope_functionTable st)
  · show (analyzeStmts (declareParameters st.enterScope f.parameters)
        f.body).scopeChain.tail = st.scopeChain
    rw [hb2, hp2]
    rfl

/-- Analyzing one function body appends a well-formed error batch bounded
by the function's body budget. -/
theorem analyzeFunction_errors (st : AnalyzerState) (f : FunctionDecl) :
    ∃ new, (analyzeFunction st f).errors = st.errors ++ new ∧
      ErrsOk st.functionTable (bodyBudget f) new := by
  unfold analyzeFunction
  obtain ⟨np, h1, ho1⟩ :=
    declareParameters_errors f.parameters st.enterScope st.functionTable
  obtain ⟨nb, h2, ho2⟩ :=
    analyzeStmts_errors f.body (declareParameters st.enterScope f.parameters)
  rw [(declareParameters_frame f.parameters st.enterScope).1,
    enterScope_functionTable] at ho2
  refine ⟨np ++ nb, ?_, ?_⟩
  · simp only [exitScope_errors, h2, h1, enterScope_errors, List.append_assoc]
  · exact (ho1.append ho2).widen (by simp [bodyBudget])

/-- Phase 2 leaves the function table untouched and restores the active
scope chain exactly. -/
theorem analyzeFunctions_frame (fs : List FunctionDecl) : ∀ st : AnalyzerState,
    (analyzeFunctions st fs).functionTable = st.functionTable ∧
    (analyzeFunctions st fs).scopeChain = st.scopeChain := by
  induction fs with
  | nil => intro st; exact ⟨rfl, rfl⟩
  | cons f fs1 ih =>
    intro st
    obtain ⟨h1, h2⟩ := analyzeFunction_frame st f
    obtain ⟨h3, h4⟩ := ih (analyzeFunction st f)
    simp only [analyzeFunctions]
    exact ⟨h3.trans h1, h4.trans h2⟩

/-- Phase 2 appends a well-formed error batch bounded by the total body
budget of the analyzed functions. -/
theorem analyzeFunctions_errors (fs : List FunctionDecl) :
    ∀ st : AnalyzerState,
    ∃ new, (analyzeFunctions st fs).errors = st.errors ++ new ∧
      ErrsOk st.functionTable ((fs.map bodyBudget).sum) new := by
  induction fs with
  | nil => intro st; exact ⟨[], by simp [analyzeFunctions], ErrsOk.nil⟩
  | cons f fs1 ih =>
    intro st
    obtain ⟨n1, h1, ho1⟩ := analyzeFunction_errors st f
    obtain ⟨n2, h2, ho2⟩ := ih (analyzeFunction st f)
    rw [(analyzeFunction_frame st f).1] at ho2
    refine ⟨n1 ++ n2, ?_, ?_⟩
    · simp only [analyzeFunctions, h2, h1, List.append_assoc]
    · exact (ho1.append ho2).widen (by simp [List.sum_cons])

/-- Declaring a fresh name inserts it into the innermost scope node and
reports nothing. -/
theorem declareVariable_fresh (st : AnalyzerState) (n : ScopeNode)
    (rest : List ScopeNode) (x ty : String) (b : Bool)
    (hchain : st.scopeChain = n :: rest) (habsent : n.lookup x = none) :
    st.declareVariable x ty b
      = { st with scopeChain :=
            { n with vars := n.vars ++ [(x, ⟨x, ty, n.level, b⟩)] } :: rest } := by
  simp only [AnalyzerState.declareVariable, hchain, ScopeNode.declare, habsent]

/-- Declaring a name already present in the innermost scope node only
appends a `VariableRedefinition` error; the chain is untouched. -/
theorem declareVariable_dup (st : AnalyzerState) (n : ScopeNode)
    (rest : List ScopeNode) (x ty : String) (b : Bool) (s : VariableSymbol)
    (hchain : st.scopeChain = n :: rest) (hsome : n.lookup x = some s) :
    st.declareVariable x ty b = st.addError ScopeError.VariableRedefinition x := by
  simp only [AnalyzerState.declareVariable, hchain, ScopeNode.declare, hsome]

/-- A freshly inserted binding is found by the local probe. -/
theorem lookup_insert_self (n : ScopeNode) (x : String) (sym : VariableSymbol)
    (habsent : n.lookup x = none) :
    ScopeNode.lookup { n with vars := n.vars ++ [(x, sym)] } x = some sym := by
  show alookup (n.vars ++ [(x, sym)]) x = some sym
  rw [alookup_append_none _ habsent]
  exact alookup_single_self x sym

/-- The chain walk resolves in the current node first. -/
theorem lookupRecursive_cons_some {n : ScopeNode} {x : String}
    {s : VariableSymbol} (c : List ScopeNode) (h : n.lookup x = some s) :
    lookupRecursive (n :: c) x = some s := by
  simp only [lookupRecursive, h]

/-- The chain walk falls through to the ancestors when the current node
does not hold the name. -/
theorem lookupRecursive_cons_none {n : ScopeNode} {x : String}
    (c : List ScopeNode) (h : n.lookup x = none) :
    lookupRecursive (n :: c) x = lookupRecursive c x := by
  simp only [lookupRecursive, h]

/-- The chain walk returns empty exactly when no node on the chain holds
the name. -/
theorem lookupRecursive_eq_none (c : List ScopeNode) (x : String) :
    lookupRecursive c x = none ↔ ∀ n ∈ c, n.lookup x = none := by
  induction c with
  | nil => simp [lookupRecursive]
  | cons n c1 ih =>
    cases h : n.lookup x with
    | some s => simp [lookupRecursive, h, List.forall_mem_cons]
    | none => simp [lookupRecursive, h, ih, List.forall_mem_cons]

/-- C1: analyze() returns false (Failed) exactly when the error list
accumulated over both phases is non-empty; when it returns true,
hasErrors() is false, and the function table and scope structures populated
by the registration phase are retained unchanged by Phase 2 for downstream
consumption. -/
theorem claim_C1 (p : ProgramNode) :
    (analyze p = true ↔ (runAnalysis p).errors = []) ∧
    (analyze p = true → (runAnalysis p).hasErrors = false) ∧
    (runAnalysis p).functionTable = (registrationPhase p).1.functionTable ∧
    (runAnalysis p).scopeChain = (registrationPhase p).1.scopeChain := by
  obtain ⟨hft, hsc⟩ :=
    analyzeFunctions_frame (registrationPhase p).2 (registrationPhase p).1
  refine ⟨?_, ?_, hft, hsc⟩
  · show (!(runAnalysis p).hasErrors) = true ↔ (runAnalysis p).errors = []
    unfold AnalyzerState.hasErrors
    cases herr : (runAnalysis p).errors <;> simp [herr]
  · intro h
    have h2 : (!(runAnalysis p).hasErrors) = true := h
    simpa using h2

/-- C7: analysis is deterministic — two runs on the same unchanged program
tree produce the same ordered error list (each run starts from the same
fresh analyzer state). -/
theorem claim_C7 (p : ProgramNode) (e1 e2 : List (ScopeError × String))
    (h1 : (runAnalysis p).errors = e1) (h2 : (runAnalysis p).errors = e2) :
    e1 = e2 :=
  h1.symm.trans h2

/-- Determinism scenario: a program with one genuine scope error. -/
def detProgram : ProgramNode :=
  ⟨[], [⟨"main", "int", [], [Stmt.exprS (Expr.ident "y")]⟩]⟩

/-- Witness for C7: both runs on the scenario program produce the same
single-element error list. -/
theorem claim_C7_witness :
    ([(ScopeError.UndeclaredVariableAccessed, "y")]
      : List (ScopeError × String))
      = [(ScopeError.UndeclaredVariableAccessed, "y")] :=
  claim_C7 detProgram
    [(ScopeError.UndeclaredVariableAccessed, "y")]
    [(ScopeError.UndeclaredVariableAccessed, "y")]
    (by decide) (by decide)

/-- C8: a run always terminates with bounded work — the traversal visits
each program-tree node at most once, so the accumulated error list is
bounded by the node count of the tree (the analyzer itself is a total
function in this embedding). -/
theorem claim_C8 (p : ProgramNode) :
    (runAnalysis p).errors.length ≤ programSize p := by
  obtain ⟨n1, h1, ho1⟩ := registerGlobals_errors p.globalVariables initialState []
  obtain ⟨n2, h2, ho2⟩ := registerFunctions_errors p.functions
    (registerGlobals initialState p.globalVariables) []
  obtain ⟨n3, h3, ho3⟩ := analyzeFunctions_errors
    (registerFunctions (registerGlobals initialState p.globalVariables)
      p.functions).2
    (registerFunctions (registerGlobals initialState p.globalVariables)
      p.functions).1
  have hre : (runAnalysis p).errors
      = ((initialState.errors ++ n1) ++ n2) ++ n3 := by
    show (analyzeFunctions
      (registerFunctions (registerGlobals initialState p.globalVariables)
        p.functions).1
      (registerFunctions (registerGlobals initialState p.globalVariables)
        p.functions).2).errors = _
    rw [h3, h2, h1]
  have hb3 : n3.length ≤ (p.functions.map bodyBudget).sum :=
    ho3.1.trans (registerFunctions_budget p.functions _)
  have hb1 : n1.length ≤ p.globalVariables.length := ho1.1
  have hb2 : n2.length ≤ p.functions.length := ho2.1
  have hz : initialState.errors.length = 0 := rfl
  rw [hre]
  unfold programSize
  simp only [List.length_append]
  omega

/-- C9: when parsing succeeds (yyparse() returns 0) but the program root is
null, the driver prints the null-root warning and exits with status 0
without invoking scope analysis — so a zero exit status does not imply that
any scope analysis was performed. -/
theorem claim_C9 (inp : DriverInput) (hargs : 2 ≤ inp.args.length)
    (hparse : inp.parseReturn = 0) (hroot : inp.programRoot = none) :
    (mainDriver inp).exitCode = 0 ∧
    (mainDriver inp).ranScopeAnalysis = false ∧
    (mainDriver inp).printedNullRootWarning = true ∧
    ∃ inp2 : DriverInput,
      (mainDriver inp2).exitCode = 0 ∧
        (mainDriver inp2).ranScopeAnalysis = false := by
  have hmd : mainDriver inp = ⟨0, true, false, false, true⟩ := by
    unfold mainDriver
    rw [if_neg (by omega), if_pos hparse, hroot]
  exact ⟨by rw [hmd], by rw [hmd], by rw [hmd],
    inp, by rw [hmd], by rw [hmd]⟩

/-- Witness for C9: a concrete invocation with a source argument, a
successful parse and a null root exits 0 with no analysis. -/
theorem claim_C9_witness :
    (mainDriver ⟨["prog", "file.txt"], 0, none⟩).exitCode = 0 ∧
    (mainDriver ⟨["prog", "file.txt"], 0, none⟩).ranScopeAnalysis = false ∧
    (mainDriver ⟨["prog", "file.txt"], 0, none⟩).printedNullRootWarning = true ∧
    ∃ inp2 : DriverInput,
      (mainDriver inp2).exitCode = 0 ∧
        (mainDriver inp2).ranScopeAnalysis = false :=
  claim_C9 ⟨["prog", "file.txt"], 0, none⟩ (by decide) (by decide) rfl

/-- C10: invoked with fewer than two command-line arguments, the driver
prints the usage message and exits with status 1 without opening any file
or running any compiler phase. -/
theorem claim_C10 (inp : DriverInput) (h : inp.args.length < 2) :
    (mainDriver inp).exitCode = 1 ∧
    (mainDriver inp).printedUsage = true ∧
    (mainDriver inp).openedSourceFile = false ∧
    (mainDriver inp).ranScopeAnalysis = false := by
  have hmd : mainDriver inp = ⟨1, false, false, true, false⟩ := by
    unfold mainDriver
    rw [if_pos h]
  exact ⟨by rw [hmd], by rw [hmd], by rw [hmd], by rw [hmd]⟩

/-- Witness for C10: a concrete invocation with only the program name. -/
theorem claim_C10_witness :
    (mainDriver ⟨["prog"], 0, none⟩).exitCode = 1 ∧
    (mainDriver ⟨["prog"], 0, none⟩).printedUsage = true ∧
    (mainDriver ⟨["prog"], 0, none⟩).openedSourceFile = false ∧
    (mainDriver ⟨["prog"], 0, none⟩).ranScopeAnalysis = false :=
  claim_C10 ⟨["prog"], 0, none⟩ (by decide)

/-- C2: for any scope node, declaring the same name a second time in that
node yields exactly one VariableRedefinition error, the declare operation
rejects the insertion, and the node still maps the name to the first symbol
with its original attributes unchanged. -/
theorem claim_C2 (st : AnalyzerState) (n : ScopeNode) (rest : List ScopeNode)
    (x t1 t2 : String) (hchain : st.scopeChain = n :: rest)
    (habsent : n.lookup x = none) :
    (analyzeStmt st (Stmt.varDecl x t1)).errors = st.errors ∧
    (analyzeStmt (analyzeStmt st (Stmt.varDecl x t1))
        (Stmt.varDecl x t2)).errors
      = st.errors ++ [(ScopeError.VariableRedefinition, x)] ∧
    ∃ n2 : ScopeNode,
      (analyzeStmt (analyzeStmt st (Stmt.varDecl x t1))
          (Stmt.varDecl x t2)).scopeChain = n2 :: rest ∧
      n2.lookup x = some ⟨x, t1, n.level, false⟩ ∧
      (n2.declare x ⟨x, t2, n2.level, false⟩).2 = false := by
  have e1 : analyzeStmt st (Stmt.varDecl x t1)
      = { st with scopeChain :=
          { n with vars := n.vars ++ [(x, ⟨x, t1, n.level, false⟩)] } :: rest } := by
    show st.declareVariable x t1 false = _
    exact declareVariable_fresh st n rest x t1 false hchain habsent
  have hl1 : ScopeNode.lookup
      { n with vars := n.vars ++ [(x, (⟨x, t1, n.level, false⟩ : VariableSymbol))] }
      x = some ⟨x, t1, n.level, false⟩ :=
    lookup_insert_self n x _ habsent
  have e2 : analyzeStmt (analyzeStmt st (Stmt.varDecl x t1)) (Stmt.varDecl x t2)
      = (analyzeStmt st
          (Stmt.varDecl x t1)).addError ScopeError.VariableRedefinition x := by
    show (analyzeStmt st (Stmt.varDecl x t1)).declareVariable x t2 false = _
    refine declareVariable_dup _ _ rest x t2 false _ ?_ hl1
    rw [e1]
  refine ⟨by rw [e1], ?_, ?_⟩
  · rw [e2, addError_errors, e1]
  · refine ⟨{ n with vars := n.vars ++ [(x, ⟨x, t1, n.level, false⟩)] },
      ?_, hl1, ?_⟩
    · rw [e2, addError_scopeChain, e1]
    · simp [ScopeNode.declare, hl1]

/-- Witness for C2: redeclaring x in the root scope node of a fresh
analyzer. -/
theorem claim_C2_witness :
    (analyzeStmt initialState (Stmt.varDecl "x" "int")).errors
      = initialState.errors ∧
    (analyzeStmt (analyzeStmt initialState (Stmt.varDecl "x" "int"))
        (Stmt.varDecl "x" "float")).errors
      = initialState.errors ++ [(ScopeError.VariableRedefinition, "x")] ∧
    ∃ n2 : ScopeNode,
      (analyzeStmt (analyzeStmt initialState (Stmt.varDecl "x" "int"))
          (Stmt.varDecl "x" "float")).scopeChain = n2 :: [] ∧
      n2.lookup "x" = some ⟨"x", "int", 0, false⟩ ∧
      (n2.declare "x" ⟨"x", "float", n2.level, false⟩).2 = false :=
  claim_C2 initialState ⟨0, []⟩ [] "x" "int" "float" rfl rfl

/-- C5: declaring x in a child scope while x exists in an ancestor produces
no error; a chain lookup from the child then resolves to the child's x,
while a chain lookup from a sibling scope (same ancestor, different branch)
resolves to the ancestor's x; and lookupRecursive probes the current node
first, falls through to the ancestors otherwise, returning empty only if
no node on the chain holds the name. -/
theorem claim_C5 (st : AnalyzerState) (child root sib : ScopeNode)
    (rest : List ScopeNode) (x tyc : String) (rx : VariableSymbol)
    (hchain : st.scopeChain = child :: root :: rest)
    (hchild : child.lookup x = none) (hroot : root.lookup x = some rx)
    (hsib : sib.lookup x = none) :
    (analyzeStmt st (Stmt.varDecl x tyc)).errors = st.errors ∧
    lookupRecursive (analyzeStmt st (Stmt.varDecl x tyc)).scopeChain x
      = some ⟨x, tyc, child.level, false⟩ ∧
    lookupRecursive (sib :: root :: rest) x = some rx ∧
    (∀ (n : ScopeNode) (c : List ScopeNode) (s : VariableSymbol),
      n.lookup x = some s → lookupRecursive (n :: c) x = some s) ∧
    (∀ (n : ScopeNode) (c : List ScopeNode),
      n.lookup x = none → lookupRecursive (n :: c) x = lookupRecursive c x) ∧
    (∀ c : List ScopeNode,
      lookupRecursive c x = none ↔ ∀ n ∈ c, n.lookup x = none) := by
  have e1 : analyzeStmt st (Stmt.varDecl x tyc)
      = { st with scopeChain :=
          { child with
              vars := child.vars ++ [(x, ⟨x, tyc, child.level, false⟩)] }
            :: root :: rest } := by
    show st.declareVariable x tyc false = _
    exact declareVariable_fresh st child (root :: rest) x tyc false hchain hchild
  refine ⟨by rw [e1], ?_, ?_, ?_, ?_, ?_⟩
  · rw [e1]
    exact lookupRecursive_cons_some _ (lookup_insert_self child x _ hchild)
  · rw [lookupRecursive_cons_none _ hsib]
    exact lookupRecursive_cons_some _ hroot
  · intro n c s h
    exact lookupRecursive_cons_some c h
  · intro n c h
    exact lookupRecursive_cons_none c h
  · intro c
    exact lookupRecursive_eq_none c x

/-- Shadowing scenario: the global root already holds x, the active child
scope does not. -/
def rootWithX : ScopeNode := ⟨0, [("x", ⟨"x", "int", 0, false⟩)]⟩

/-- The child scope of the shadowing scenario (no local names yet). -/
def childScope : ScopeNode := ⟨1, []⟩

/-- A sibling scope of the child (same ancestor, different branch) that
does not declare x. -/
def sibScope : ScopeNode := ⟨1, [("z", ⟨"z", "int", 1, false⟩)]⟩

/-- Analyzer state of the shadowing scenario: active chain child :: root. -/
def shadowState : AnalyzerState := ⟨[], [childScope, rootWithX], []⟩

/-- Witness for C5: the shadowing scenario at concrete values. -/
theorem claim_C5_witness :
    (analyzeStmt shadowState (Stmt.varDecl "x" "float")).errors
      = shadowState.errors ∧
    lookupRecursive
        (analyzeStmt shadowState (Stmt.varDecl "x" "float")).scopeChain "x"
      = some ⟨"x", "float", childScope.level, false⟩ ∧
    lookupRecursive (sibScope :: rootWithX :: []) "x"
      = some ⟨"x", "int", 0, false⟩ ∧
    (∀ (n : ScopeNode) (c : List ScopeNode) (s : VariableSymbol),
      ScopeNode.lookup n "x" = some s → lookupRecursive (n :: c) "x" = some s) ∧
    (∀ (n : ScopeNode) (c : List ScopeNode),
      ScopeNode.lookup n "x" = none →
        lookupRecursive (n :: c) "x" = lookupRecursive c "x") ∧
    (∀ c : List ScopeNode,
      lookupRecursive c "x" = none ↔ ∀ n ∈ c, ScopeNode.lookup n "x" = none) :=
  claim_C5 shadowState childScope rootWithX sibScope [] "x" "float"
    ⟨"x", "int", 0, false⟩ rfl rfl (by decide) (by decide)

/-- C6: the scope node pushed for a block is popped when its visit
completes, so the active chain after the block equals the chain before it;
a later identifier reference therefore resolves against the pre-block chain
only — to an outer declaration when one exists, and to an
UndeclaredVariableAccessed error when none does (a name declared inside the
block is no longer resolvable). -/
theorem claim_C6 (st st1 : AnalyzerState) (ss : List Stmt) (x : String)
    (hblock : analyzeStmt st (Stmt.block ss) = st1) :
    st1.scopeChain = st.scopeChain ∧
    (lookupRecursive st.scopeChain x = none →
      (analyzeStmt st1 (Stmt.exprS (Expr.ident x))).errors
        = st1.errors ++ [(ScopeError.UndeclaredVariableAccessed, x)]) ∧
    (∀ s : VariableSymbol, lookupRecursive st.scopeChain x = some s →
      (analyzeStmt st1 (Stmt.exprS (Expr.ident x))).errors = st1.errors) := by
  have hchain : st1.scopeChain = st.scopeChain := by
    rw [← hblock]
    simp only [analyzeStmt]
    obtain ⟨h1, h2, h3⟩ := analyzeStmts_frame ss st.enterScope
    show (analyzeStmts st.enterScope ss).scopeChain.tail = st.scopeChain
    rw [h2]
    rfl
  refine ⟨hchain, ?_, ?_⟩
  · intro hnone
    have hl : lookupRecursive st1.scopeChain x = none := by
      rw [hchain]
      exact hnone
    simp only [analyzeStmt, analyzeExpr, hl, addError_errors]
  · intro s hsome
    have hl : lookupRecursive st1.scopeChain x = some s := by
      rw [hchain]
      exact hsome
    simp only [analyzeStmt, analyzeExpr, hl]

/-- Witness for C6: a block declaring t, followed by a reference to t, in a
fresh analyzer whose root scope does not hold t. -/
theorem claim_C6_witness :
    (analyzeStmt initialState
        (Stmt.block [Stmt.varDecl "t" "int"])).scopeChain
      = initialState.scopeChain ∧
    (lookupRecursive initialState.scopeChain "t" = none →
      (analyzeStmt
          (analyzeStmt initialState (Stmt.block [Stmt.varDecl "t" "int"]))
          (Stmt.exprS (Expr.ident "t"))).errors
        = (analyzeStmt initialState
            (Stmt.block [Stmt.varDecl "t" "int"])).errors
            ++ [(ScopeError.UndeclaredVariableAccessed, "t")]) ∧
    (∀ s : VariableSymbol,
      lookupRecursive initialState.scopeChain "t" = some s →
      (analyzeStmt
          (analyzeStmt initialState (Stmt.block [Stmt.varDecl "t" "int"]))
          (Stmt.exprS (Expr.ident "t"))).errors
        = (analyzeStmt initialState
            (Stmt.block [Stmt.varDecl "t" "int"])).errors) :=
  claim_C6 initialState
    (analyzeStmt initialState (Stmt.block [Stmt.varDecl "t" "int"]))
    [Stmt.varDecl "t" "int"] "t" rfl

/-- C3: the function table holds at most one entry per name throughout a
run (its keys are distinct), a second registration of an already-registered
name is rejected with the table unchanged, the driver then appends exactly
one FunctionPrototypeRedefinition error and skips the duplicate, and the
first registered entry remains in the table afterwards. -/
theorem claim_C3 (p : ProgramNode) (st : AnalyzerState) (f : FunctionDecl)
    (fs : List FunctionDecl) (sym : FunctionSymbol)
    (hdup : alookup st.functionTable f.name = some sym) :
    ((runAnalysis p).functionTable.map Prod.fst).Nodup ∧
    registerFunction st.functionTable (makeFunctionSymbol f)
      = (st.functionTable, false) ∧
    registerFunctions st (f :: fs)
      = registerFunctions
          (st.addError ScopeError.FunctionPrototypeRedefinition f.name) fs ∧
    alookup (registerFunctions st (f :: fs)).1.functionTable f.name
      = some sym := by
  have hrej : registerFunction st.functionTable (makeFunctionSymbol f)
      = (st.functionTable, false) := by
    unfold registerFunction
    rw [makeFunctionSymbol_name, hdup]
  have hstep : registerFunctions st (f :: fs)
      = registerFunctions
          (st.addError ScopeError.FunctionPrototypeRedefinition f.name) fs := by
    simp only [registerFunctions]
    rw [hrej]
  have hnodup : ((runAnalysis p).functionTable.map Prod.fst).Nodup := by
    have h0 : (((registerGlobals initialState
        p.globalVariables).functionTable).map Prod.fst).Nodup := by
      rw [(registerGlobals_frame p.globalVariables initialState).1]
      simp [initialState]
    have h1 := registerFunctions_keysNodup p.functions
      (registerGlobals initialState p.globalVariables) h0
    have h2 : (runAnalysis p).functionTable
        = (registerFunctions (registerGlobals initialState p.globalVariables)
            p.functions).1.functionTable :=
      (analyzeFunctions_frame
        (registerFunctions (registerGlobals initialState p.globalVariables)
          p.functions).2
        (registerFunctions (registerGlobals initialState p.globalVariables)
          p.functions).1).1
    rw [h2]
    exact h1
  have hkeep : alookup
      (registerFunctions st (f :: fs)).1.functionTable f.name = some sym := by
    rw [hstep]
    exact registerFunctions_mono fs _ f.name sym hdup
  exact ⟨hnodup, hrej, hstep, hkeep⟩

/-- First of the two duplicate top-level definitions of dup. -/
def dupFn : FunctionDecl := ⟨"dup", "int", [], [Stmt.ret (some (Expr.lit 0))]⟩

/-- Second top-level definition with the same name dup. -/
def dupFn2 : FunctionDecl := ⟨"dup", "int", [], [Stmt.ret (some (Expr.lit 1))]⟩

/-- Program with a duplicated top-level function name. -/
def dupProgram : ProgramNode := ⟨[], [dupFn, dupFn2]⟩

/-- Analyzer state in which dup is already registered. -/
def dupState : AnalyzerState :=
  ⟨[("dup", makeFunctionSymbol dupFn)], [⟨0, []⟩], []⟩

/-- Witness for C3: registering dup a second time at concrete values. -/
theorem claim_C3_witness :
    ((runAnalysis dupProgram).functionTable.map Prod.fst).Nodup ∧
    registerFunction dupState.functionTable (makeFunctionSymbol dupFn2)
      = (dupState.functionTable, false) ∧
    registerFunctions dupState (dupFn2 :: [])
      = registerFunctions
          (dupState.addError ScopeError.FunctionPrototypeRedefinition
            dupFn2.name) [] ∧
    alookup (registerFunctions dupState (dupFn2 :: [])).1.functionTable
        dupFn2.name
      = some (makeFunctionSymbol dupFn) :=
  claim_C3 dupProgram dupState dupFn2 [] (makeFunctionSymbol dupFn) (by decide)

/-- C4: a call to a function declared anywhere at top level never produces
an UndefinedFunctionCalled error, because Phase 1 registers every top-level
function name before Phase 2 inspects any body (forward references are
legal). -/
theorem claim_C4 (p : ProgramNode) (f : String)
    (hf : f ∈ p.functions.map FunctionDecl.name) :
    (ScopeError.UndefinedFunctionCalled, f) ∉ (runAnalysis p).errors := by
  obtain ⟨s, hs⟩ := registerFunctions_registered p.functions
    (registerGlobals initialState p.globalVariables) f hf
  obtain ⟨n1, h1, ho1⟩ := registerGlobals_errors p.globalVariables initialState
    (registerFunctions (registerGlobals initialState p.globalVariables)
      p.functions).1.functionTable
  obtain ⟨n2, h2, ho2⟩ := registerFunctions_errors p.functions
    (registerGlobals initialState p.globalVariables)
    (registerFunctions (registerGlobals initialState p.globalVariables)
      p.functions).1.functionTable
  obtain ⟨n3, h3, ho3⟩ := analyzeFunctions_errors
    (registerFunctions (registerGlobals initialState p.globalVariables)
      p.functions).2
    (registerFunctions (registerGlobals initialState p.globalVariables)
      p.functions).1
  have hre : (runAnalysis p).errors
      = ((initialState.errors ++ n1) ++ n2) ++ n3 := by
    show (analyzeFunctions
      (registerFunctions (registerGlobals initialState p.globalVariables)
        p.functions).1
      (registerFunctions (registerGlobals initialState p.globalVariables)
        p.functions).2).errors = _
    rw [h3, h2, h1]
  rw [hre]
  intro hmem
  have hmem2 : (ScopeError.UndefinedFunctionCalled, f) ∈ n1 ∨
      (ScopeError.UndefinedFunctionCalled, f) ∈ n2 ∨
      (ScopeError.UndefinedFunctionCalled, f) ∈ n3 := by
    simp only [List.mem_append] at hmem
    rcases hmem with ((hmem | hmem) | hmem) | hmem
    · simp [initialState] at hmem
    · exact Or.inl hmem
    · exact Or.inr (Or.inl hmem)
    · exact Or.inr (Or.inr hmem)
  have hnone : alookup
      (registerFunctions (registerGlobals initialState p.globalVariables)
        p.functions).1.functionTable f = none := by
    rcases hmem2 with h | h | h
    · exact ho1.2 f h
    · exact ho2.2 f h
    · exact ho3.2 f h
  rw [hs] at hnone
  exact Option.noConfusion hnone

/-- Forward-reference scenario: main calls helper before helper's own
definition appears. -/
def fwdProgram : ProgramNode :=
  ⟨[], [⟨"main", "int", [], [Stmt.ret (some (Expr.call "helper" []))]⟩,
        ⟨"helper", "int", [], [Stmt.ret (some (Expr.lit 0))]⟩]⟩

/-- Witness for C4: the forward call to helper produces no
UndefinedFunctionCalled error. -/
theorem claim_C4_witness :
    "helper" ∈ fwdProgram.functions.map FunctionDecl.name ∧
    (ScopeError.UndefinedFunctionCalled, "helper")
      ∉ (runAnalysis fwdProgram).errors :=
  ⟨by decide, claim_C4 fwdProgram "helper" (by decide)⟩
